import Mathlib

/-! Verification of the pearl collector (`collector/pearl.go`).

The Go source is shallowly embedded below.  Go strings are modelled as
Lean `String`s, with character-level operations going through `String.toList`.
Standard-library functions consumed by the source (`strings.Fields`,
`strings.HasPrefix`, `strings.Split`, `strings.TrimSpace`, `strconv.Atoi`,
`fmt.Sprintf`, `bufio.ScanLines`, `filepath.Base`, `filepath.Dir`,
`filepath.Join`, `filepath.WalkDir`) are modelled here as pure functions on
those strings, following the documented Go semantics on the inputs the
collector feeds them (ASCII paths and `/proc` status text).  Filesystem and
runit state is abstracted into oracle functions collected in an `Env`
structure; machine integers are modelled as `Int` (the parsed values are far
from the 64-bit range, so overflow is irrelevant to the claims).
-/

/-- Whitespace per Go `unicode.IsSpace` for the code points the collector can
meet: `\t`, `\n`, `\v`, `\f`, `\r`, space, NEL (U+0085) and NBSP (U+00A0). -/
def goIsSpace (c : Char) : Bool :=
  c == ' ' || c == '\t' || c == '\n' || c == Char.ofNat 11 || c == Char.ofNat 12 ||
  c == '\r' || c == Char.ofNat 133 || c == Char.ofNat 160

/-- Model of `strings.Fields`: split around runs of whitespace, keeping only
the non-empty words. -/
def goFields (s : String) : List String :=
  ((s.toList.splitOnP goIsSpace).filter (fun w => w ≠ [])).map List.asString

/-- Model of `strings.HasPrefix s pre`. -/
def goHasPre (s p : String) : Bool :=
  p.toList.isPrefixOf s.toList

/-- Digit-string part of `strconv.Atoi`: all characters must be decimal
digits and there must be at least one. -/
def parseDigits (cs : List Char) : Option Nat :=
  if cs = [] then none
  else if cs.all Char.isDigit then
    some (cs.foldl (fun acc c => acc * 10 + (c.toNat - 48)) 0)
  else none

/-- Model of `strconv.Atoi`: optional sign followed by at least one decimal
digit.  (The `ErrRange` overflow case is irrelevant here: anything it would
reject is also an error in Go, and the claims only concern small values.) -/
def atoi (s : String) : Option Int :=
  match s.toList with
  | '+' :: rest => (parseDigits rest).map (fun n => (n : Int))
  | '-' :: rest => (parseDigits rest).map (fun n => -(n : Int))
  | cs => (parseDigits cs).map (fun n => (n : Int))

/-- Go `map[string]β` assignment `m[k] = v`, on an association-list
representation: replace the binding if the key is present, else append. -/
def mapInsert {β : Type} : List (String × β) → String → β → List (String × β)
  | [], k, v => [(k, v)]
  | p :: rest, k, v => if p.1 = k then (k, v) :: rest else p :: mapInsert rest k v

/-- Go `map[string]β` lookup `m[k]`. -/
def mapFind {β : Type} : List (String × β) → String → Option β
  | [], _ => none
  | p :: rest, k => if p.1 = k then some p.2 else mapFind rest k

/-- Snapshot type: the `ProcessStatusSnapshot`, the `map[string]int` built by the parser. -/
abbrev Snapshot := List (String × Int)

/-- One row of the `knownMetrics` table in `pearl.go`. -/
structure MetricSpec where
  StatusKey : String
  MetricName : String
  Description : String
  NumberOfParams : Nat
  Multiplier : Int
deriving DecidableEq

/-- The `knownMetrics` table from `pearl.go`, verbatim. -/
def knownMetrics : List MetricSpec :=
  [⟨"VmRSS", "service_mem_vmrss", "Virtual memory resident set size in bytes", 2, 1024⟩,
   ⟨"Threads", "service_threads", "Number of threads", 1, 1⟩,
   ⟨"voluntary_ctxt_switches", "service_voluntary_ctxt_switches",
     "Number of voluntary context switches", 1, 1⟩,
   ⟨"nonvoluntary_ctxt_switches", "service_nonvoluntary_ctxt_switches",
     "Number of nonvoluntary context switches", 1, 1⟩]

/-- The `VmRSS` row of `knownMetrics`. -/
def vmSpec : MetricSpec :=
  ⟨"VmRSS", "service_mem_vmrss", "Virtual memory resident set size in bytes", 2, 1024⟩

/-- The `Threads` row of `knownMetrics`. -/
def thSpec : MetricSpec := ⟨"Threads", "service_threads", "Number of threads", 1, 1⟩

/-- The `voluntary_ctxt_switches` row of `knownMetrics`. -/
def voSpec : MetricSpec :=
  ⟨"voluntary_ctxt_switches", "service_voluntary_ctxt_switches",
    "Number of voluntary context switches", 1, 1⟩

/-- The `nonvoluntary_ctxt_switches` row of `knownMetrics`. -/
def nvSpec : MetricSpec :=
  ⟨"nonvoluntary_ctxt_switches", "service_nonvoluntary_ctxt_switches",
    "Number of nonvoluntary context switches", 1, 1⟩

theorem knownMetrics_eq : knownMetrics = [vmSpec, thSpec, voSpec, nvSpec] := rfl

/-- The two `fmt.Errorf` failures of `getMetricsFromStatusFile`: wrong field
count (carrying the key and the raw line) and unparsable value (carrying the
key and the offending token). -/
inductive ParseError where
  | invalidNumberOfParams (key line : String)
  | invalidValue (key token : String)
deriving DecidableEq

/-- Body of the inner `for _, metric := range knownMetrics` loop of
`getMetricsFromStatusFile` for one metric and one line: on a key-prefix match
the line is split into fields, the field count is checked, the second field
is parsed, and `value * Multiplier` is stored under `MetricName`. -/
def applyMetric (metrics : Snapshot) (metric : MetricSpec) (line : String) :
    Except ParseError Snapshot :=
  if goHasPre line metric.StatusKey then
    let parts := goFields line
    if parts.length ≠ metric.NumberOfParams + 1 then
      .error (.invalidNumberOfParams metric.StatusKey line)
    else
      match atoi (parts.getD 1 "") with
      | none => .error (.invalidValue metric.StatusKey (parts.getD 1 ""))
      | some value => .ok (mapInsert metrics metric.MetricName (value * metric.Multiplier))
  else
    .ok metrics

/-- The inner metric loop of `getMetricsFromStatusFile`: every spec is tried
against the line (no first-match cutoff); an error aborts the whole parse. -/
def processMetrics : Snapshot → List MetricSpec → String → Except ParseError Snapshot
  | m, [], _ => .ok m
  | m, spec :: rest, line =>
    match applyMetric m spec line with
    | .error e => .error e
    | .ok m1 => processMetrics m1 rest line

/-- The outer scanner loop of `getMetricsFromStatusFile` over the scanned
lines of the status record. -/
def processLines : Snapshot → List String → Except ParseError Snapshot
  | m, [] => .ok m
  | m, line :: rest =>
    match processMetrics m knownMetrics line with
    | .error e => .error e
    | .ok m1 => processLines m1 rest

/-- Parsing core of `getMetricsFromStatusFile` in `pearl.go`, applied to the
scanned lines of a `/proc/<pid>/status` record (the `os.Open` of that file is
kept in `RunitService.GetStatusFileMetrics` below, as an oracle). -/
def getMetricsFromStatusFile (lines : List String) : Except ParseError Snapshot :=
  processLines [] lines

/-- Model of `bufio.Scanner` with `bufio.ScanLines`: split the raw record on
newlines, drop a final empty token produced by a trailing newline, and strip
one trailing carriage return from each line. -/
def splitOnChar (sep : Char) : List Char → List (List Char)
  | [] => [[]]
  | c :: cs =>
    if c = sep then [] :: splitOnChar sep cs
    else
      match splitOnChar sep cs with
      | [] => [[c]]
      | w :: ws => (c :: w) :: ws

/-- Scanned lines of a raw status-record string, per `bufio.ScanLines`. -/
def scanLines (s : String) : List String :=
  let parts := splitOnChar '\n' s.toList
  let parts := if parts.getLast? = some [] then parts.dropLast else parts
  parts.map (fun l => (if l.getLast? = some '\r' then l.dropLast else l).asString)

deriving instance DecidableEq for Except

example : goFields "VmRSS:\t  2048 kB" = ["VmRSS:", "2048", "kB"] := by decide
example : atoi "2048" = some 2048 := by decide
example : atoi "garbage" = none := by decide
example : atoi "-7" = some (-7) := by decide
example : atoi "" = none := by decide
example : scanLines "VmRSS:\t  2048 kB\nThreads:\t4\n" = ["VmRSS:\t  2048 kB", "Threads:\t4"] := by
  decide
example :
    getMetricsFromStatusFile ["VmRSS:\t  2048 kB", "Threads:\t4"] =
      .ok [("service_mem_vmrss", 2097152), ("service_threads", 4)] := by decide
example :
    getMetricsFromStatusFile ["VmRSS: 2048"] =
      .error (.invalidNumberOfParams "VmRSS" "VmRSS: 2048") := by decide

/-- Model of `strings.Split name "."` at the character level: split on every
dot, keeping empty words (Go `Split` on a one-character separator). -/
def strippedName (name : String) : String :=
  if name.toList.contains '.' then
    ((splitOnChar '.' name.toList).getLastD []).asString
  else name

/-- Model of `fmt.Sprintf` applied to a format string with NO operands, as in
`fmt.Sprintf(path + "/supervise")` in `isServiceDir`: ordinary characters are
copied, `%%` prints one percent sign, any other verb character prints the
`%!c(MISSING)` missing-operand notice, and a trailing bare percent prints
`%!(NOVERB)` (flag/width prefixes never occur in the collector's inputs). -/
def sprintfNoArgs : List Char → List Char
  | [] => []
  | c :: cs =>
    if c = '%' then
      match cs with
      | [] => "%!(NOVERB)".toList
      | d :: rest =>
        if d = '%' then '%' :: sprintfNoArgs rest
        else '%' :: '!' :: d :: "(MISSING)".toList ++ sprintfNoArgs rest
    else c :: sprintfNoArgs cs

/-- The file name `isServiceDir` actually hands to `os.Stat`:
`fmt.Sprintf(path + "/supervise")` with no operands. -/
def statPath (path : String) : String :=
  (sprintfNoArgs (path ++ "/supervise").toList).asString

/-- Outcome classes of an `os.Stat` call: success, an error satisfying
`os.IsNotExist`, or any other error. -/
inductive StatOutcome where
  | found
  | notFound
  | failed
deriving DecidableEq

/-- Model of `isServiceDir` from `pearl.go`: the pair models Go's `(bool, error)`
return, with `some ()` standing for a non-nil error. -/
def isServiceDir (stat : String → StatOutcome) (path : String) : Bool × Option Unit :=
  match stat (statPath path) with
  | .found => (true, none)
  | .notFound => (false, none)
  | .failed => (false, some ())

/-- Structure `RunitService` from `pearl.go`. -/
structure RunitService where
  Name : String
  Path : String
deriving DecidableEq

/-- Model of `filepath.Base` for the slash-separated paths the walk builds:
strip trailing slashes, then keep the last slash-separated component. -/
def filepathBase (p : String) : String :=
  let cs := (p.toList.reverse.dropWhile (fun c => c == '/')).reverse
  if cs = [] then (if p.toList = [] then "." else "/")
  else ((cs.reverse.takeWhile (fun c => c != '/')).reverse).asString

/-- Model of `filepath.Dir` for the slash-separated paths the walk builds:
everything up to the last slash, cleaned of trailing slashes. -/
def filepathDir (p : String) : String :=
  let pre2 := (p.toList.reverse.dropWhile (fun c => c != '/')).reverse
  let pre3 := (pre2.reverse.dropWhile (fun c => c == '/')).reverse
  if pre2 = [] then "." else if pre3 = [] then "/" else pre3.asString

/-- Model of `filepath.Join dir name` for the clean inputs the walk builds. -/
def joinPath (dir name : String) : String :=
  if dir.toList.getLast? = some '/' then dir ++ name else dir ++ "/" ++ name

/-- The two error sources of a `filepath.WalkDir` traversal that are not
produced by the callback itself: the initial `lstat` of the root failing, and
`ReadDir` failing on a visited directory. -/
inductive WalkErr where
  | lstatFailed (root : String)
  | readDirFailed (path : String)
deriving DecidableEq

/-- The anonymous `walkFn` closure inside `getServicesInDir`: the error from
`isServiceDir` is discarded (`s, _ := isServiceDir(path)`); on a positive
classification a service named by `filepath.Base`/`filepath.Dir` is appended;
the walk error handed in by `WalkDir` is returned unchanged. -/
def walkFn (stat : String → StatOutcome) (services : List RunitService)
    (path : String) (err : Option WalkErr) : List RunitService × Option WalkErr :=
  let services :=
    if (isServiceDir stat path).1 then
      services ++ [⟨filepathBase path, filepathDir path⟩]
    else services
  (services, err)

/- A directory tree as `filepath.WalkDir` sees it: entry name, whether the
entry is a directory, whether `ReadDir` succeeds on it, and its children in
`ReadDir` (lexical) order.  Children are a mutually defined forest so that
the walk below is plain mutual structural recursion. -/
mutual
/-- A directory-tree entry as `filepath.WalkDir` sees it. -/
inductive FsNode where
  | file (name : String)
  | dir (name : String) (readable : Bool) (children : FsForest)

/-- The children of a directory, in `ReadDir` order. -/
inductive FsForest where
  | nil
  | cons (head : FsNode) (tail : FsForest)
end

def FsNode.name : FsNode → String
  | .file n => n
  | .dir n _ _ => n

/- One `filepath.WalkDir` traversal, threading the service accumulator and
stopping at the first callback error, exactly as `path/filepath.walkDir`
does with the `walkFn` above. -/
mutual
/-- Walk one node: the callback runs on the node first; for a readable
directory the children are walked in order; for an unreadable directory the
callback is invoked a second time with the `ReadDir` error, which it
returns, aborting the walk. -/
def walkNode (stat : String → StatOutcome) (path : String) (n : FsNode)
    (services : List RunitService) : List RunitService × Option WalkErr :=
  match walkFn stat services path none with
  | (services1, some e) => (services1, some e)
  | (services1, none) =>
    match n with
    | .file _ => (services1, none)
    | .dir _ readable children =>
      if readable then walkForest stat path children services1
      else walkFn stat services1 path (some (.readDirFailed path))

/-- Walk each tree of a forest in order, stopping at the first error. -/
def walkForest (stat : String → StatOutcome) (dirPath : String) (ns : FsForest)
    (services : List RunitService) : List RunitService × Option WalkErr :=
  match ns with
  | .nil => (services, none)
  | .cons n rest =>
    match walkNode stat (joinPath dirPath n.name) n services with
    | (services1, some e) => (services1, some e)
    | (services1, none) => walkForest stat dirPath rest services1
end

/-- State of a walk root as `filepath.WalkDir` first probes it: either the
initial `os.Lstat` fails, or it yields a tree. -/
inductive Root where
  | missing
  | present (n : FsNode)

/-- Model of `getServicesInDir` from `pearl.go`: run `filepath.WalkDir` from the root
with `walkFn`; on a root `lstat` failure `WalkDir` hands the error straight
to the callback, which returns it.  Both the accumulated services and the
walk error are returned, as in the Go `return services, err`. -/
def getServicesInDir (stat : String → StatOutcome) (fs : String → Root)
    (dir : String) : List RunitService × Option WalkErr :=
  match fs dir with
  | .missing => walkFn stat [] dir (some (.lstatFailed dir))
  | .present n => walkNode stat dir n []

/-- The hard-coded service roots of `getAllServices`. -/
def svcRoots : List String := ["/service/", "/tmp/service/"]

/-- Model of `getAllServices` from `pearl.go`: roots whose walk fails are printed and
skipped (their partial results discarded); the function itself always
returns a nil error. -/
def getAllServices (stat : String → StatOutcome) (fs : String → Root) :
    List RunitService × Option WalkErr :=
  (svcRoots.foldl (fun services root =>
    match getServicesInDir stat fs root with
    | (_, some _) => services
    | (d, none) => services ++ d) [], none)

/-- Oracles for everything the collector reads from outside: `os.Stat`
outcomes, the walkable trees under each root, the runit status query
(`runit.GetService(name, path).Status()`, reduced to the `Pid` the collector
uses, with `Except.error` for a failed query), the scanned lines of
`/proc/<pid>/status` (`Except.error` when the open or read fails), and the
raw content of each `channel_id` file (`none` when the open fails). -/
structure Env where
  stat : String → StatOutcome
  fs : String → Root
  svStatus : String → String → Except String Int
  procStatus : Int → Except String (List String)
  channelFile : String → Option String

/-- Model of `RunitService.Status`, reduced to the process id the collector uses. -/
def RunitService.Status (rs : RunitService) (env : Env) : Except String Int :=
  env.svStatus rs.Name rs.Path

/-- Model of `strings.TrimSpace`. -/
def trimSpace (s : String) : String :=
  (((s.toList.dropWhile goIsSpace).reverse.dropWhile goIsSpace).reverse).asString

/-- The path `getChannelID` opens: `fmt.Sprintf("%v/%v/channel_id", rs.Path,
rs.Name)`. -/
def channelIDPath (rs : RunitService) : String :=
  rs.Path ++ "/" ++ rs.Name ++ "/channel_id"

/-- Model of `RunitService.getChannelID`: read at most 8 bytes of the `channel_id`
file and trim whitespace; any open or read failure (including the immediate
`io.EOF` of an empty file) yields the empty string. -/
def RunitService.getChannelID (rs : RunitService) (env : Env) : String :=
  match env.channelFile (channelIDPath rs) with
  | none => ""
  | some content =>
    if content = "" then ""
    else trimSpace (content.toList.take 8).asString

/-- Model of `RunitService.GetLabels`: a map always holding `service`, plus
`channel_id` when `getChannelID` returned a non-empty value. -/
def RunitService.GetLabels (rs : RunitService) (env : Env) : List (String × String) :=
  let labels := mapInsert [] "service" (strippedName rs.Name)
  let channelID := rs.getChannelID env
  if channelID ≠ "" then mapInsert labels "channel_id" channelID else labels

/-- The error type of `GetStatusFileMetrics`: a failed runit status query,
a failed open of the status file, or a malformed record. -/
inductive PearlErr where
  | statusFailed (msg : String)
  | openFailed (msg : String)
  | malformed (e : ParseError)
deriving DecidableEq

/-- Model of `RunitService.GetStatusFileMetrics`: query runit for the pid, then parse
that process's status record. -/
def RunitService.GetStatusFileMetrics (rs : RunitService) (env : Env) :
    Except PearlErr Snapshot :=
  match rs.Status env with
  | .error e => .error (.statusFailed e)
  | .ok pid =>
    match env.procStatus pid with
    | .error e => .error (.openFailed e)
    | .ok lines =>
      match getMetricsFromStatusFile lines with
      | .error e => .error (.malformed e)
      | .ok m => .ok m

/-- One sample handed to the metric channel: name, description, label keys,
label values and the gauge value (`float64(value)` is exact for every value
the parser can produce, so the value is kept as an integer). -/
structure MetricSample where
  name : String
  description : String
  labelKeys : List String
  labelValues : List String
  value : Int
deriving DecidableEq

/-- The label-array construction in `Update`: one iteration over the label
mapping appends each key to `labelKeys` and, in the same step, its value to
`labelValues`. -/
def labelArrays (labels : List (String × String)) : List String × List String :=
  (labels.map Prod.fst, labels.map Prod.snd)

/-- The emission loop of `Update`: one sample per `knownMetrics` row whose
`MetricName` is present in the snapshot; absent rows emit nothing. -/
def emitMetrics (labelKeys labelValues : List String) (metrics : Snapshot) :
    List MetricSample :=
  knownMetrics.filterMap (fun metric =>
    match mapFind metrics metric.MetricName with
    | some value =>
      some ⟨metric.MetricName, metric.Description, labelKeys, labelValues, value⟩
    | none => none)

/-- The per-service body of `Update`: labels are built, a metrics failure is
logged and skipped (no samples), otherwise the snapshot is emitted with the
service's label arrays. -/
def updateService (env : Env) (svc : RunitService) : List MetricSample :=
  let labels := svc.GetLabels env
  match svc.GetStatusFileMetrics env with
  | .error _ => []
  | .ok metrics => emitMetrics (labelArrays labels).1 (labelArrays labels).2 metrics

/-- Model of `pearlCollector.Update`: discover services, then emit samples per
service, returning an error only when `getAllServices` reports one. -/
def pearlCollectorUpdate (env : Env) : Except WalkErr (List MetricSample) :=
  match getAllServices env.stat env.fs with
  | (_, some e) => .error e
  | (services, none) => .ok (services.flatMap (updateService env))

example : strippedName "foo.bar.baz" = "baz" := by decide
example : strippedName "simple" = "simple" := by decide
example : statPath "/service/x" = "/service/x/supervise" := by decide
example : statPath "/srv/%d" = "/srv/%!d(MISSING)/supervise" := by decide
example : filepathBase "/tmp/service/a" = "a" := by decide
example : filepathDir "/tmp/service/a" = "/tmp/service" := by decide

/-- The service tree used by the concrete collection-pass scenario: two valid
runit services `a` and `b` under the second root. -/
def exTree : FsNode :=
  .dir "service" true
    (.cons (.dir "a" true (.cons (.dir "supervise" true .nil) .nil))
      (.cons (.dir "b" true (.cons (.dir "supervise" true .nil) .nil)) .nil))

/-- Concrete environment for the collection-pass scenario: the first root is
unreadable (its `lstat` fails), the second holds services `a` and `b`, both
alive with parseable status records, and no `channel_id` files. -/
def exEnv : Env where
  stat := fun p =>
    if p = "/tmp/service/a/supervise" || p = "/tmp/service/b/supervise" then .found
    else .notFound
  fs := fun r => if r = "/tmp/service/" then .present exTree else .missing
  svStatus := fun name path =>
    if path = "/tmp/service" then
      (if name = "a" then .ok 100 else if name = "b" then .ok 200 else .error "down")
    else .error "down"
  procStatus := fun pid =>
    if pid = 100 || pid = 200 then .ok ["VmRSS:\t  2048 kB", "Threads:\t4"]
    else .error "no such process"
  channelFile := fun _ => none

example : walkNode exEnv.stat "/tmp/service/" exTree [] =
    ([⟨"a", "/tmp/service"⟩, ⟨"b", "/tmp/service"⟩], none) := by decide

example :
    getAllServices exEnv.stat exEnv.fs =
      ([⟨"a", "/tmp/service"⟩, ⟨"b", "/tmp/service"⟩], none) := by decide

example :
    pearlCollectorUpdate exEnv =
      .ok
        [⟨"service_mem_vmrss", "Virtual memory resident set size in bytes",
           ["service"], ["a"], 2097152⟩,
         ⟨"service_threads", "Number of threads", ["service"], ["a"], 4⟩,
         ⟨"service_mem_vmrss", "Virtual memory resident set size in bytes",
           ["service"], ["b"], 2097152⟩,
         ⟨"service_threads", "Number of threads", ["service"], ["b"], 4⟩] := by decide

/-! ### Helper lemmas about the map model -/

theorem mapFind_mapInsert_self {β : Type} (m : List (String × β)) (k : String) (v : β) :
    mapFind (mapInsert m k v) k = some v := by
  induction m with
  | nil => simp [mapInsert, mapFind]
  | cons p rest ih =>
    by_cases h : p.1 = k
    · simp [mapInsert, mapFind, h]
    · simp [mapInsert, mapFind, h, ih]

theorem mapFind_mapInsert_ne {β : Type} (m : List (String × β)) (k k' : String) (v : β)
    (hk : k' ≠ k) : mapFind (mapInsert m k v) k' = mapFind m k' := by
  induction m with
  | nil => simp [mapInsert, mapFind, Ne.symm hk]
  | cons p rest ih =>
    by_cases h : p.1 = k
    · have h' : p.1 ≠ k' := fun hc => hk ((hc ▸ h : k' = k))
      simp [mapInsert, mapFind, h, Ne.symm hk, h']
    · simp only [mapInsert, if_neg h]
      by_cases h2 : p.1 = k'
      · simp [mapFind, h2]
      · simp [mapFind, h2, ih]

theorem mapFind_eq_of_mem {β : Type} {m : List (String × β)} {k : String} {v : β}
    (hmem : (k, v) ∈ m) (hnodup : (m.map Prod.fst).Nodup) : mapFind m k = some v := by
  induction m with
  | nil => cases hmem
  | cons p rest ih =>
    rcases List.mem_cons.mp hmem with heq | hmem'
    · rw [← heq]; simp [mapFind]
    · have hk : p.1 ≠ k := by
        intro hpk
        have hmap : k ∈ rest.map Prod.fst := List.mem_map.mpr ⟨(k, v), hmem', rfl⟩
        rw [List.map_cons, List.nodup_cons] at hnodup
        exact hnodup.1 (hpk ▸ hmap)
      rw [List.map_cons, List.nodup_cons] at hnodup
      simp [mapFind, hk, ih hmem' hnodup.2]

/-! ### Helper lemmas about prefix matching of the known keys -/

theorem isPrefixOf_head {a : Char} {l1 s : List Char}
    (h : List.isPrefixOf (a :: l1) s = true) : ∃ t, s = a :: t := by
  cases s with
  | nil => simp [List.isPrefixOf] at h
  | cons b t =>
    simp only [List.isPrefixOf, Bool.and_eq_true, beq_iff_eq] at h
    exact ⟨t, by rw [h.1]⟩

theorem goHasPre_head_ne {line k1 k2 : String}
    (h : goHasPre line k1 = true)
    (hne : ∃ c1 c2, k1.toList.head? = some c1 ∧ k2.toList.head? = some c2 ∧ c1 ≠ c2) :
    goHasPre line k2 = false := by
  obtain ⟨c1, c2, h1, h2, hcc⟩ := hne
  unfold goHasPre at h ⊢
  cases hk1 : k1.toList with
  | nil => rw [hk1] at h1; cases h1
  | cons a t1 =>
    rw [hk1] at h h1
    simp only [List.head?] at h1
    cases h1
    obtain ⟨t, ht⟩ := isPrefixOf_head h
    cases hk2 : k2.toList with
    | nil => rw [hk2] at h2; cases h2
    | cons b t2 =>
      rw [hk2] at h2
      simp only [List.head?] at h2
      cases h2
      rw [ht]
      simp only [List.isPrefixOf, Bool.and_eq_true, beq_iff_eq]
      simp [Ne.symm hcc, hcc]

/-! ### Helper lemmas about one metric applied to one line -/

theorem applyMetric_no_match {m : Snapshot} {spec : MetricSpec} {line : String}
    (hpre : goHasPre line spec.StatusKey = false) :
    applyMetric m spec line = .ok m := by
  simp [applyMetric, hpre]

theorem applyMetric_ok_of_match {m m' : Snapshot} {spec : MetricSpec} {line : String}
    (hpre : goHasPre line spec.StatusKey = true)
    (hok : applyMetric m spec line = .ok m') :
    ∃ v, (goFields line).length = spec.NumberOfParams + 1 ∧
      atoi ((goFields line).getD 1 "") = some v ∧
      m' = mapInsert m spec.MetricName (v * spec.Multiplier) := by
  simp only [applyMetric, hpre, if_true] at hok
  split at hok
  · exact absurd hok (by simp)
  · split at hok
    · exact absurd hok (by simp)
    · rename_i hlen hatoi
      refine ⟨_, by omega, hatoi, ?_⟩
      exact (Except.ok.injEq _ _ |>.mp hok).symm

theorem applyMetric_error_of_bad (m : Snapshot) {spec : MetricSpec} {line : String}
    (hpre : goHasPre line spec.StatusKey = true)
    (hbad : (goFields line).length ≠ spec.NumberOfParams + 1 ∨
      atoi ((goFields line).getD 1 "") = none) :
    ∃ e, applyMetric m spec line = .error e := by
  simp only [applyMetric, hpre, if_true]
  rcases hbad with h | h
  · rw [if_pos h]; exact ⟨_, rfl⟩
  · by_cases hlen : (goFields line).length ≠ spec.NumberOfParams + 1
    · rw [if_pos hlen]; exact ⟨_, rfl⟩
    · rw [if_neg hlen, h]; exact ⟨_, rfl⟩

theorem applyMetric_find_preserve {m m' : Snapshot} {spec : MetricSpec} {line : String}
    (k : String) (hok : applyMetric m spec line = .ok m')
    (hk : k ≠ spec.MetricName ∨ goHasPre line spec.StatusKey = false) :
    mapFind m' k = mapFind m k := by
  rcases hk with hk | hk
  · by_cases hpre : goHasPre line spec.StatusKey = true
    · obtain ⟨v, _, _, rfl⟩ := applyMetric_ok_of_match hpre hok
      exact mapFind_mapInsert_ne m spec.MetricName k (v * spec.Multiplier) hk
    · rw [Bool.not_eq_true] at hpre
      rw [applyMetric_no_match hpre] at hok
      cases hok
      rfl
  · rw [applyMetric_no_match hk] at hok
    cases hok
    rfl

/-! ### Decomposition of the metric loop and the scanner loop -/

theorem processMetrics_cons_ok {m m' : Snapshot} {spec : MetricSpec}
    {rest : List MetricSpec} {line : String}
    (h : processMetrics m (spec :: rest) line = .ok m') :
    ∃ m1, applyMetric m spec line = .ok m1 ∧ processMetrics m1 rest line = .ok m' := by
  cases happ : applyMetric m spec line with
  | error e => simp [processMetrics, happ] at h
  | ok m1 =>
    simp only [processMetrics, happ] at h
    exact ⟨m1, rfl, h⟩

theorem processMetrics_cons_error {m : Snapshot} {spec : MetricSpec}
    {rest : List MetricSpec} {line : String} {e : ParseError}
    (h : applyMetric m spec line = .error e) :
    processMetrics m (spec :: rest) line = .error e := by
  simp [processMetrics, h]

theorem processMetrics_nil_ok {m m' : Snapshot} {line : String}
    (h : processMetrics m [] line = .ok m') : m = m' := by
  simp only [processMetrics] at h
  exact Except.ok.injEq _ _ |>.mp h

theorem processLines_cons_ok {m m' : Snapshot} {line : String} {rest : List String}
    (h : processLines m (line :: rest) = .ok m') :
    ∃ m1, processMetrics m knownMetrics line = .ok m1 ∧ processLines m1 rest = .ok m' := by
  cases hl : processMetrics m knownMetrics line with
  | error e => simp [processLines, hl] at h
  | ok m1 =>
    simp only [processLines, hl] at h
    exact ⟨m1, rfl, h⟩

theorem processLines_append (m : Snapshot) (l1 l2 : List String) :
    processLines m (l1 ++ l2) =
      match processLines m l1 with
      | .error e => .error e
      | .ok m1 => processLines m1 l2 := by
  induction l1 generalizing m with
  | nil => simp [processLines]
  | cons l ls ih =>
    cases h : processMetrics m knownMetrics l with
    | error e => simp [processLines, h]
    | ok m1 => simp [processLines, h, ih]

/-! ### The metric loop on the concrete `knownMetrics` table -/

theorem processMetrics_vmrss {m m' : Snapshot} {line : String} {n : Int}
    (hpre : goHasPre line "VmRSS" = true)
    (hn : atoi ((goFields line).getD 1 "") = some n)
    (h : processMetrics m knownMetrics line = .ok m') :
    m' = mapInsert m "service_mem_vmrss" (n * 1024) := by
  have hth : goHasPre line "Threads" = false :=
    goHasPre_head_ne hpre ⟨'V', 'T', by decide, by decide, by decide⟩
  have hvo : goHasPre line "voluntary_ctxt_switches" = false :=
    goHasPre_head_ne hpre ⟨'V', 'v', by decide, by decide, by decide⟩
  have hnv : goHasPre line "nonvoluntary_ctxt_switches" = false :=
    goHasPre_head_ne hpre ⟨'V', 'n', by decide, by decide, by decide⟩
  simp only [knownMetrics] at h
  obtain ⟨m1, h1, h⟩ := processMetrics_cons_ok h
  obtain ⟨m2, h2, h⟩ := processMetrics_cons_ok h
  obtain ⟨m3, h3, h⟩ := processMetrics_cons_ok h
  obtain ⟨m4, h4, h⟩ := processMetrics_cons_ok h
  have hm4 := processMetrics_nil_ok h
  obtain ⟨v, hlen, hv, rfl⟩ := applyMetric_ok_of_match hpre h1
  have hvn : v = n := Option.some.inj (hv.symm.trans hn)
  rw [applyMetric_no_match hth] at h2
  cases h2
  rw [applyMetric_no_match hvo] at h3
  cases h3
  rw [applyMetric_no_match hnv] at h4
  cases h4
  rw [← hm4, hvn]

theorem processMetrics_find_preserve {m m' : Snapshot} {line : String} {spec : MetricSpec}
    (hspec : spec ∈ knownMetrics)
    (hpre : goHasPre line spec.StatusKey = false)
    (h : processMetrics m knownMetrics line = .ok m') :
    mapFind m' spec.MetricName = mapFind m spec.MetricName := by
  simp only [knownMetrics] at h
  obtain ⟨m1, h1, h⟩ := processMetrics_cons_ok h
  obtain ⟨m2, h2, h⟩ := processMetrics_cons_ok h
  obtain ⟨m3, h3, h⟩ := processMetrics_cons_ok h
  obtain ⟨m4, h4, h⟩ := processMetrics_cons_ok h
  have hm4 := processMetrics_nil_ok h
  simp only [knownMetrics, List.mem_cons, List.not_mem_nil, or_false] at hspec
  rcases hspec with rfl | rfl | rfl | rfl
  · show mapFind m' "service_mem_vmrss" = mapFind m "service_mem_vmrss"
    have e1 := applyMetric_find_preserve "service_mem_vmrss" h1 (Or.inr hpre)
    have e2 := applyMetric_find_preserve "service_mem_vmrss" h2 (Or.inl (by decide))
    have e3 := applyMetric_find_preserve "service_mem_vmrss" h3 (Or.inl (by decide))
    have e4 := applyMetric_find_preserve "service_mem_vmrss" h4 (Or.inl (by decide))
    rw [← hm4, e4, e3, e2, e1]
  · show mapFind m' "service_threads" = mapFind m "service_threads"
    have e1 := applyMetric_find_preserve "service_threads" h1 (Or.inl (by decide))
    have e2 := applyMetric_find_preserve "service_threads" h2 (Or.inr hpre)
    have e3 := applyMetric_find_preserve "service_threads" h3 (Or.inl (by decide))
    have e4 := applyMetric_find_preserve "service_threads" h4 (Or.inl (by decide))
    rw [← hm4, e4, e3, e2, e1]
  · show mapFind m' "service_voluntary_ctxt_switches" =
      mapFind m "service_voluntary_ctxt_switches"
    have e1 := applyMetric_find_preserve "service_voluntary_ctxt_switches" h1
      (Or.inl (by decide))
    have e2 := applyMetric_find_preserve "service_voluntary_ctxt_switches" h2
      (Or.inl (by decide))
    have e3 := applyMetric_find_preserve "service_voluntary_ctxt_switches" h3 (Or.inr hpre)
    have e4 := applyMetric_find_preserve "service_voluntary_ctxt_switches" h4
      (Or.inl (by decide))
    rw [← hm4, e4, e3, e2, e1]
  · show mapFind m' "service_nonvoluntary_ctxt_switches" =
      mapFind m "service_nonvoluntary_ctxt_switches"
    have e1 := applyMetric_find_preserve "service_nonvoluntary_ctxt_switches" h1
      (Or.inl (by decide))
    have e2 := applyMetric_find_preserve "service_nonvoluntary_ctxt_switches" h2
      (Or.inl (by decide))
    have e3 := applyMetric_find_preserve "service_nonvoluntary_ctxt_switches" h3
      (Or.inl (by decide))
    have e4 := applyMetric_find_preserve "service_nonvoluntary_ctxt_switches" h4 (Or.inr hpre)
    rw [← hm4, e4, e3, e2, e1]

theorem processMetrics_error_of_bad_line (m : Snapshot) {line : String} {spec : MetricSpec}
    (hspec : spec ∈ knownMetrics)
    (hpre : goHasPre line spec.StatusKey = true)
    (hbad : (goFields line).length ≠ spec.NumberOfParams + 1 ∨
      atoi ((goFields line).getD 1 "") = none) :
    ∃ e, processMetrics m knownMetrics line = .error e := by
  rw [knownMetrics_eq] at hspec
  simp only [List.mem_cons, List.not_mem_nil, or_false] at hspec
  rcases hspec with rfl | rfl | rfl | rfl
  · obtain ⟨e, he⟩ := applyMetric_error_of_bad m hpre hbad
    exact ⟨e, by rw [knownMetrics_eq]; simp only [processMetrics, he]⟩
  · have hv : goHasPre line vmSpec.StatusKey = false :=
      goHasPre_head_ne hpre ⟨'T', 'V', by decide, by decide, by decide⟩
    obtain ⟨e, he⟩ := applyMetric_error_of_bad m hpre hbad
    exact ⟨e, by
      rw [knownMetrics_eq]
      simp only [processMetrics, applyMetric_no_match hv, he]⟩
  · have hv : goHasPre line vmSpec.StatusKey = false :=
      goHasPre_head_ne hpre ⟨'v', 'V', by decide, by decide, by decide⟩
    have ht : goHasPre line thSpec.StatusKey = false :=
      goHasPre_head_ne hpre ⟨'v', 'T', by decide, by decide, by decide⟩
    obtain ⟨e, he⟩ := applyMetric_error_of_bad m hpre hbad
    exact ⟨e, by
      rw [knownMetrics_eq]
      simp only [processMetrics, applyMetric_no_match hv, applyMetric_no_match ht, he]⟩
  · have hv : goHasPre line vmSpec.StatusKey = false :=
      goHasPre_head_ne hpre ⟨'n', 'V', by decide, by decide, by decide⟩
    have ht : goHasPre line thSpec.StatusKey = false :=
      goHasPre_head_ne hpre ⟨'n', 'T', by decide, by decide, by decide⟩
    have hvo : goHasPre line voSpec.StatusKey = false :=
      goHasPre_head_ne hpre ⟨'n', 'v', by decide, by decide, by decide⟩
    obtain ⟨e, he⟩ := applyMetric_error_of_bad m hpre hbad
    exact ⟨e, by
      rw [knownMetrics_eq]
      simp only [processMetrics, applyMetric_no_match hv, applyMetric_no_match ht,
        applyMetric_no_match hvo, he]⟩

/-! ### The scanner loop -/

theorem processLines_error_of_bad {lines : List String} {line : String} {spec : MetricSpec}
    (hmem : line ∈ lines) (hspec : spec ∈ knownMetrics)
    (hpre : goHasPre line spec.StatusKey = true)
    (hbad : (goFields line).length ≠ spec.NumberOfParams + 1 ∨
      atoi ((goFields line).getD 1 "") = none) :
    ∀ m : Snapshot, ∃ e, processLines m lines = .error e := by
  induction lines with
  | nil => cases hmem
  | cons l ls ih =>
    intro m
    cases hml : processMetrics m knownMetrics l with
    | error e => exact ⟨e, by simp [processLines, hml]⟩
    | ok m1 =>
      rcases List.mem_cons.mp hmem with rfl | hmem'
      · obtain ⟨e, he⟩ := processMetrics_error_of_bad_line m hspec hpre hbad
        rw [he] at hml
        cases hml
      · obtain ⟨e, he⟩ := ih hmem' m1
        exact ⟨e, by simp [processLines, hml, he]⟩

theorem processLines_find_preserve {lines : List String} {spec : MetricSpec}
    (hspec : spec ∈ knownMetrics)
    (hall : ∀ l ∈ lines, goHasPre l spec.StatusKey = false) :
    ∀ m m' : Snapshot, processLines m lines = .ok m' →
      mapFind m' spec.MetricName = mapFind m spec.MetricName := by
  induction lines with
  | nil =>
    intro m m' h
    simp only [processLines] at h
    cases h
    rfl
  | cons l ls ih =>
    intro m m' h
    obtain ⟨m1, h1, h2⟩ := processLines_cons_ok h
    have e1 := processMetrics_find_preserve hspec (hall l (List.mem_cons_self l ls)) h1
    have e2 := ih (fun x hx => hall x (List.mem_cons_of_mem l hx)) m1 m' h2
    rw [e2, e1]

/-! ### Claim theorems for the status-record parser -/

/-- C1: for every status record whose last line matching the `VmRSS` key has
an integer second token `n`, a successful parse stores `n * 1024` under
`service_mem_vmrss` (records with a single `VmRSS` line, the `/proc` format,
satisfy the last-match hypothesis trivially); and the record made of the
lines `"VmRSS:\t  2048 kB\n"` and `"Threads:\t4\n"` parses to exactly the
snapshot mapping `service_mem_vmrss` to `2097152` and `service_threads`
to `4`. -/
theorem C1_vmrss_value :
    (∀ (pre post : List String) (line : String) (n : Int) (m : Snapshot),
      getMetricsFromStatusFile (pre ++ line :: post) = .ok m →
      goHasPre line "VmRSS" = true →
      atoi ((goFields line).getD 1 "") = some n →
      (∀ l ∈ post, goHasPre l "VmRSS" = false) →
      mapFind m "service_mem_vmrss" = some (n * 1024)) ∧
    getMetricsFromStatusFile (scanLines "VmRSS:\t  2048 kB\nThreads:\t4\n") =
      .ok [("service_mem_vmrss", 2097152), ("service_threads", 4)] := by
  constructor
  · intro pre post line n m hok hpre hn hall
    unfold getMetricsFromStatusFile at hok
    rw [processLines_append] at hok
    cases hpre' : processLines [] pre with
    | error e => rw [hpre'] at hok; simp at hok
    | ok m1 =>
      rw [hpre'] at hok
      obtain ⟨m2, h2, h3⟩ := processLines_cons_ok hok
      have hm2 := processMetrics_vmrss hpre hn h2
      subst hm2
      have hp := processLines_find_preserve (show vmSpec ∈ knownMetrics by decide)
        (fun l hl => hall l hl) _ m h3
      have hp' : mapFind m "service_mem_vmrss" =
          mapFind (mapInsert m1 "service_mem_vmrss" (n * 1024)) "service_mem_vmrss" := hp
      rw [hp', mapFind_mapInsert_self]
  · decide

/-- Witness for C1 at the spec's concrete record. -/
theorem C1_vmrss_value_witness :
    mapFind [("service_mem_vmrss", (2097152 : Int)), ("service_threads", 4)]
      "service_mem_vmrss" = some (2048 * 1024) :=
  C1_vmrss_value.1 [] ["Threads:\t4"] "VmRSS:\t  2048 kB" 2048
    [("service_mem_vmrss", 2097152), ("service_threads", 4)]
    (by decide) (by decide) (by decide) (by decide)

/-- C2: whenever some known metric's key is a prefix of some line of the
record and that line has the wrong whitespace-token count or a second token
that is not a base-10 integer, the whole parse returns a malformed-record
error (hence no snapshot at all). -/
theorem C2_malformed_errors (lines : List String) (spec : MetricSpec) (line : String)
    (hspec : spec ∈ knownMetrics) (hmem : line ∈ lines)
    (hpre : goHasPre line spec.StatusKey = true)
    (hbad : (goFields line).length ≠ spec.NumberOfParams + 1 ∨
      atoi ((goFields line).getD 1 "") = none) :
    ∃ e, getMetricsFromStatusFile lines = .error e :=
  processLines_error_of_bad hmem hspec hpre hbad []

/-- Witness for C2: a `VmRSS` line whose second token is not an integer. -/
theorem C2_malformed_errors_witness :
    ∃ e, getMetricsFromStatusFile ["VmRSS:\t x kB"] = .error e :=
  C2_malformed_errors ["VmRSS:\t x kB"] vmSpec "VmRSS:\t x kB"
    (by decide) (by decide) (by decide) (by decide)

/-- C7: the empty record parses to the empty snapshot without error; a known
metric whose key matches no line of a successfully parsed record is absent
from the snapshot (not stored as zero); and emission produces no sample for
a metric name that is absent from the snapshot. -/
theorem C7_absent_metrics :
    getMetricsFromStatusFile [] = .ok [] ∧
    (∀ (lines : List String) (m : Snapshot) (spec : MetricSpec),
      spec ∈ knownMetrics →
      getMetricsFromStatusFile lines = .ok m →
      (∀ l ∈ lines, goHasPre l spec.StatusKey = false) →
      mapFind m spec.MetricName = none) ∧
    (∀ (keys values : List String) (metrics : Snapshot) (spec : MetricSpec),
      spec ∈ knownMetrics →
      mapFind metrics spec.MetricName = none →
      ∀ s ∈ emitMetrics keys values metrics, s.name ≠ spec.MetricName) := by
  refine ⟨rfl, ?_, ?_⟩
  · intro lines m spec hspec hok hall
    have hpres := processLines_find_preserve hspec hall [] m hok
    simpa [mapFind] using hpres
  · intro keys values metrics spec hspec hnone s hs hname
    unfold emitMetrics at hs
    obtain ⟨metric, hmem, hf⟩ := List.mem_filterMap.mp hs
    cases hfind : mapFind metrics metric.MetricName with
    | none => rw [hfind] at hf; simp at hf
    | some v =>
      rw [hfind] at hf
      simp only [Option.some.injEq] at hf
      rw [← hf] at hname
      simp only at hname
      rw [hname] at hfind
      rw [hfind] at hnone
      cases hnone

/-- Witness for C7: a record with only a `Threads` line leaves
`service_mem_vmrss` absent. -/
theorem C7_absent_metrics_witness :
    mapFind [("service_threads", (4 : Int))] vmSpec.MetricName = none :=
  C7_absent_metrics.2.1 ["Threads:\t4"] [("service_threads", 4)] vmSpec
    (by decide) (by decide) (by decide)


/-! ### Structure of `splitOnChar`, for the `strippedName` claim -/

theorem splitOnChar_cons_self (sep : Char) (cs : List Char) :
    splitOnChar sep (sep :: cs) = [] :: splitOnChar sep cs := by
  simp [splitOnChar]

theorem splitOnChar_ne_nil (sep : Char) (l : List Char) : splitOnChar sep l ≠ [] := by
  induction l with
  | nil => simp [splitOnChar]
  | cons c cs ih =>
    by_cases hc : c = sep
    · subst hc; simp [splitOnChar]
    · simp only [splitOnChar, if_neg hc]
      cases splitOnChar sep cs <;> simp

theorem splitOnChar_cons_of_ne {sep c : Char} {cs : List Char} {w : List Char}
    {ws : List (List Char)} (h : c ≠ sep) (hs : splitOnChar sep cs = w :: ws) :
    splitOnChar sep (c :: cs) = (c :: w) :: ws := by
  simp [splitOnChar, h, hs]

theorem splitOnChar_of_not_mem {sep : Char} {l : List Char} (h : sep ∉ l) :
    splitOnChar sep l = [l] := by
  induction l with
  | nil => rfl
  | cons c cs ih =>
    have hc : c ≠ sep := fun hcc => h (hcc ▸ List.mem_cons_self c cs)
    have hcs : sep ∉ cs := fun hm => h (List.mem_cons_of_mem c hm)
    rw [splitOnChar_cons_of_ne hc (ih hcs)]

theorem getLastD_cons_ne {α : Type} (x d d' : α) (l : List α) (h : l ≠ []) :
    (x :: l).getLastD d = l.getLastD d' := by
  cases l with
  | nil => cases h rfl
  | cons y ys =>
    rw [List.getLastD_eq_getLast?, List.getLastD_eq_getLast?, List.getLast?_cons_cons]
    have hs : (y :: ys).getLast?.isSome = true := List.getLast?_isSome.mpr (by simp)
    obtain ⟨a, ha⟩ := Option.isSome_iff_exists.mp hs
    simp [ha]

theorem splitOnChar_getLastD_not_mem (sep : Char) (l : List Char) :
    sep ∉ (splitOnChar sep l).getLastD [] := by
  induction l with
  | nil => simp [splitOnChar]
  | cons c cs ih =>
    by_cases hc : c = sep
    · subst hc
      rw [splitOnChar_cons_self, List.getLastD_cons]
      exact ih
    · cases hs : splitOnChar sep cs with
      | nil => exact absurd hs (splitOnChar_ne_nil sep cs)
      | cons w ws =>
        rw [splitOnChar_cons_of_ne hc hs]
        rw [hs] at ih
        cases ws with
        | nil =>
          simp only [List.getLastD_cons, List.getLastD_nil] at ih ⊢
          intro hmem
          rcases List.mem_cons.mp hmem with h1 | h1
          · exact hc h1.symm
          · exact ih h1
        | cons w2 ws2 =>
          rw [getLastD_cons_ne (c :: w) [] [] (w2 :: ws2) (by simp)]
          rw [getLastD_cons_ne w [] [] (w2 :: ws2) (by simp)] at ih
          exact ih

theorem splitOnChar_length_ge_two {sep : Char} {l : List Char} (h : sep ∈ l) :
    2 ≤ (splitOnChar sep l).length := by
  induction l with
  | nil => cases h
  | cons c cs ih =>
    by_cases hc : c = sep
    · subst hc
      rw [splitOnChar_cons_self, List.length_cons]
      have := List.length_pos.mpr (splitOnChar_ne_nil c cs)
      omega
    · have hcs : sep ∈ cs := by
        rcases List.mem_cons.mp h with h1 | h1
        · exact absurd h1.symm hc
        · exact h1
      cases hs : splitOnChar sep cs with
      | nil => exact absurd hs (splitOnChar_ne_nil sep cs)
      | cons w ws =>
        rw [splitOnChar_cons_of_ne hc hs]
        have h2 := ih hcs
        rw [hs] at h2
        simp only [List.length_cons] at h2 ⊢
        omega

theorem splitOnChar_last_decomp {sep : Char} {l : List Char} (h : sep ∈ l) :
    ∃ pre, l = pre ++ sep :: (splitOnChar sep l).getLastD [] := by
  induction l with
  | nil => cases h
  | cons c cs ih =>
    by_cases hc : c = sep
    · subst hc
      by_cases hm : c ∈ cs
      · obtain ⟨pre, hpre⟩ := ih hm
        refine ⟨c :: pre, ?_⟩
        rw [splitOnChar_cons_self, List.getLastD_cons, List.cons_append, ← hpre]
      · refine ⟨[], ?_⟩
        rw [splitOnChar_cons_self, List.getLastD_cons, splitOnChar_of_not_mem hm,
          List.getLastD_cons, List.getLastD_nil, List.nil_append]
    · have hcs : sep ∈ cs := by
        rcases List.mem_cons.mp h with h1 | h1
        · exact absurd h1.symm hc
        · exact h1
      obtain ⟨pre, hpre⟩ := ih hcs
      cases hs : splitOnChar sep cs with
      | nil => exact absurd hs (splitOnChar_ne_nil sep cs)
      | cons w ws =>
        rw [splitOnChar_cons_of_ne hc hs]
        rw [hs] at hpre
        have h2 := splitOnChar_length_ge_two hcs
        rw [hs] at h2
        cases ws with
        | nil => simp at h2
        | cons w2 ws2 =>
          refine ⟨c :: pre, ?_⟩
          rw [getLastD_cons_ne (c :: w) [] [] (w2 :: ws2) (by simp)]
          rw [getLastD_cons_ne w [] [] (w2 :: ws2) (by simp)] at hpre
          rw [List.cons_append, ← hpre]

/-- C3: `strippedName` returns the substring after the last dot when the
name contains a dot (the returned suffix is dot-free and the part before it
ends with a dot), and returns the name unchanged otherwise; in particular
`strippedName "foo.bar.baz" = "baz"` and `strippedName "simple" = "simple"`. -/
theorem C3_strippedName :
    (∀ name : String,
      (name.toList.contains '.' = true →
        ∃ pre, name.toList = pre ++ '.' :: (strippedName name).toList ∧
          '.' ∉ (strippedName name).toList) ∧
      (name.toList.contains '.' = false → strippedName name = name)) ∧
    strippedName "foo.bar.baz" = "baz" ∧ strippedName "simple" = "simple" := by
  refine ⟨?_, by decide, by decide⟩
  intro name
  constructor
  · intro hc
    have hmem : '.' ∈ name.toList := List.elem_iff.mp hc
    have hs : strippedName name =
        ((splitOnChar '.' name.toList).getLastD []).asString := by
      unfold strippedName
      rw [if_pos hc]
    obtain ⟨pre, hpre⟩ := splitOnChar_last_decomp hmem
    refine ⟨pre, ?_, ?_⟩
    · rw [hs, List.toList_asString]
      exact hpre
    · rw [hs, List.toList_asString]
      exact splitOnChar_getLastD_not_mem '.' name.toList
  · intro hc
    have hnm : '.' ∉ name.toList := by simpa using hc
    simp only [strippedName]
    rw [if_neg (by simpa using hc)]

/-- Witness for C3 at `"foo.bar.baz"`. -/
theorem C3_strippedName_witness :
    ∃ pre, ("foo.bar.baz").toList = pre ++ '.' :: (strippedName "foo.bar.baz").toList ∧
      '.' ∉ (strippedName "foo.bar.baz").toList :=
  (C3_strippedName.1 "foo.bar.baz").1 (by decide)

/-! ### Claim theorems for discovery, the collection pass and labels -/

/-- Stat oracle for the C4 counterexample: the existence check of the
`supervise` marker under `/service/d` fails with an error that is not
`IsNotExist`; every other check reports "not found". -/
def cxStat : String → StatOutcome := fun p =>
  if p = "/service/d/supervise" then .failed else .notFound

/-- Tree for the C4 counterexample: the walked root holds one
subdirectory `d`. -/
def cxTree : FsNode := .dir "service" true (.cons (.dir "d" true .nil) .nil)

/-- C4 counterexample: the `supervise` existence check of the visited
directory `/service/d` fails with a non-"not found" error — `isServiceDir`
reports it — yet the tree's walk completes with NO error (the callback
discards the `isServiceDir` error with `s, _ := isServiceDir(path)`), so a
non-"not found" existence-check failure is not a fatal error for that
tree's walk, contrary to the claim. -/
theorem C4_counterexample :
    cxStat (statPath "/service/d") = .failed ∧
    isServiceDir cxStat "/service/d" = (false, some ()) ∧
    walkNode cxStat "/service/" cxTree [] = ([], none) ∧
    getServicesInDir cxStat
      (fun r => if r = "/service/" then .present cxTree else .missing)
      "/service/" = ([], none) := by
  refine ⟨by decide, by decide, by decide, by decide⟩

/-- C4 (amended): a directory is classified as a service exactly when the
existence check of its `supervise` marker succeeds; a "not found" failure is
a normal negative result with no error; any other existence-check failure
makes `isServiceDir` report an error, but the walk callback discards that
error and returns only the walk error it was handed, so the existence-check
failure never aborts the tree's walk. -/
theorem C4_amended (stat : String → StatOutcome) (path : String) :
    ((isServiceDir stat path).1 = true ↔ stat (statPath path) = .found) ∧
    (stat (statPath path) = .notFound → isServiceDir stat path = (false, none)) ∧
    (stat (statPath path) = .failed → isServiceDir stat path = (false, some ())) ∧
    (∀ (services : List RunitService) (err : Option WalkErr),
      (walkFn stat services path err).2 = err) := by
  refine ⟨?_, ?_, ?_, ?_⟩
  · unfold isServiceDir
    cases h : stat (statPath path) <;> simp
  · intro h
    unfold isServiceDir
    rw [h]
  · intro h
    unfold isServiceDir
    rw [h]
  · intro services err
    rfl

/-- Witness for the amended C4 at the counterexample's environment. -/
theorem C4_amended_witness :
    isServiceDir cxStat "/service/d" = (false, some ()) ∧
    (walkFn cxStat [] "/service/d" none).2 = none :=
  ⟨(C4_amended cxStat "/service/d").2.2.1 (by decide),
   (C4_amended cxStat "/service/d").2.2.2 [] none⟩

/-- C5: a collection pass never returns an error (so in particular it
returns an error only if discovery fails — which `getAllServices` never
reports, since failed roots are printed and skipped); and in the concrete
scenario where the root `/service/` is unreadable and `/tmp/service/` holds
the two valid services `a` and `b`, the pass emits exactly the samples of
those two services. -/
theorem C5_update_error_policy :
    (∀ env : Env, ∃ samples, pearlCollectorUpdate env = .ok samples) ∧
    pearlCollectorUpdate exEnv =
      .ok
        [⟨"service_mem_vmrss", "Virtual memory resident set size in bytes",
           ["service"], ["a"], 2097152⟩,
         ⟨"service_threads", "Number of threads", ["service"], ["a"], 4⟩,
         ⟨"service_mem_vmrss", "Virtual memory resident set size in bytes",
           ["service"], ["b"], 2097152⟩,
         ⟨"service_threads", "Number of threads", ["service"], ["b"], 4⟩] := by
  constructor
  · intro env
    exact ⟨(getAllServices env.stat env.fs).1.flatMap (updateService env), rfl⟩
  · decide

/-- C6: a discovered service whose supervision query or status parse fails
contributes no samples at all for the cycle (no partial snapshot), and the
pass still emits exactly the samples of the other discovered services. -/
theorem C6_failed_service_contained (env : Env) (l1 l2 : List RunitService)
    (svc : RunitService) (e : PearlErr)
    (hsvc : (getAllServices env.stat env.fs).1 = l1 ++ svc :: l2)
    (herr : svc.GetStatusFileMetrics env = .error e) :
    updateService env svc = [] ∧
    pearlCollectorUpdate env =
      .ok (l1.flatMap (updateService env) ++ l2.flatMap (updateService env)) := by
  have h1 : updateService env svc = [] := by
    unfold updateService
    rw [herr]
  refine ⟨h1, ?_⟩
  have h2 : pearlCollectorUpdate env =
      .ok ((getAllServices env.stat env.fs).1.flatMap (updateService env)) := rfl
  rw [h2, hsvc, List.flatMap_append, List.flatMap_cons, h1]
  simp

/-- Environment for the C6 witness: as in the C5 scenario, but service `b`'s
runit status query fails. -/
def exEnv2 : Env where
  stat := exEnv.stat
  fs := exEnv.fs
  svStatus := fun name path =>
    if path = "/tmp/service" ∧ name = "a" then .ok 100 else .error "down"
  procStatus := exEnv.procStatus
  channelFile := exEnv.channelFile

/-- Witness for C6: with service `b` down, the pass emits exactly
service `a`'s samples. -/
theorem C6_failed_service_contained_witness :
    updateService exEnv2 ⟨"b", "/tmp/service"⟩ = [] ∧
    pearlCollectorUpdate exEnv2 =
      .ok (([(⟨"a", "/tmp/service"⟩ : RunitService)].flatMap (updateService exEnv2)) ++
        (([] : List RunitService).flatMap (updateService exEnv2))) :=
  C6_failed_service_contained exEnv2 [⟨"a", "/tmp/service"⟩] [] ⟨"b", "/tmp/service"⟩
    (.statusFailed "down") (by decide) (by decide)

/-- The two possible shapes of a service's label map. -/
theorem getLabels_eq (env : Env) (rs : RunitService) :
    rs.GetLabels env =
      if rs.getChannelID env ≠ "" then
        [("service", strippedName rs.Name), ("channel_id", rs.getChannelID env)]
      else [("service", strippedName rs.Name)] := by
  unfold RunitService.GetLabels
  by_cases h : rs.getChannelID env ≠ ""
  · rw [if_pos h, if_pos h]
    rfl
  · rw [if_neg h, if_neg h]
    rfl

/-- The label map never repeats a key. -/
theorem getLabels_keys_nodup (env : Env) (rs : RunitService) :
    ((rs.GetLabels env).map Prod.fst).Nodup := by
  rw [getLabels_eq]
  by_cases h : rs.getChannelID env ≠ ""
  · rw [if_pos h]
    show (["service", "channel_id"] : List String).Nodup
    decide
  · rw [if_neg h]
    show (["service"] : List String).Nodup
    decide

/-- C8: the label map always holds `service` with the stripped name; it
holds `channel_id` exactly when `getChannelID` produced a non-empty trimmed
value (and then with that value); and a missing or unreadable `channel_id`
file makes `getChannelID` yield the empty string — label construction is a
total function, so no error can propagate from it. -/
theorem C8_labels (env : Env) (rs : RunitService) :
    mapFind (rs.GetLabels env) "service" = some (strippedName rs.Name) ∧
    (∀ c : String, mapFind (rs.GetLabels env) "channel_id" = some c ↔
      rs.getChannelID env ≠ "" ∧ c = rs.getChannelID env) ∧
    (env.channelFile (channelIDPath rs) = none → rs.getChannelID env = "") := by
  refine ⟨?_, ?_, ?_⟩
  · rw [getLabels_eq]
    by_cases h : rs.getChannelID env ≠ ""
    · rw [if_pos h]
      rfl
    · rw [if_neg h]
      rfl
  · intro c
    rw [getLabels_eq]
    by_cases h : rs.getChannelID env ≠ ""
    · rw [if_pos h]
      have hfind : mapFind [("service", strippedName rs.Name),
          ("channel_id", rs.getChannelID env)] "channel_id" =
          some (rs.getChannelID env) := rfl
      rw [hfind]
      constructor
      · intro hc
        exact ⟨h, (Option.some.inj hc).symm⟩
      · rintro ⟨_, hc⟩
        rw [hc]
    · rw [if_neg h]
      have hfind : mapFind [("service", strippedName rs.Name)] "channel_id" =
          (none : Option String) := rfl
      rw [hfind]
      constructor
      · intro hc
        cases hc
      · rintro ⟨hne, _⟩
        exact absurd hne h
  · intro h
    unfold RunitService.getChannelID
    rw [h]

/-- Witness for C8: a service with no `channel_id` file. -/
theorem C8_labels_witness :
    mapFind ((⟨"a", "/tmp/service"⟩ : RunitService).GetLabels exEnv) "service" =
      some (strippedName "a") ∧
    (⟨"a", "/tmp/service"⟩ : RunitService).getChannelID exEnv = "" :=
  ⟨(C8_labels exEnv ⟨"a", "/tmp/service"⟩).1,
   (C8_labels exEnv ⟨"a", "/tmp/service"⟩).2.2 rfl⟩

/-- C9: for any iteration order of a service's label map, the key array and
the value array built in one pass over it have the same length and
correspond index-for-index: the label map sends the i-th key to the i-th
value. -/
theorem C9_label_arrays (env : Env) (rs : RunitService)
    (order : List (String × String)) (horder : order.Perm (rs.GetLabels env)) :
    (labelArrays order).1 = order.map Prod.fst ∧
    (labelArrays order).2 = order.map Prod.snd ∧
    (labelArrays order).1.length = (labelArrays order).2.length ∧
    ∀ i (h : i < order.length),
      mapFind (rs.GetLabels env) (order.get ⟨i, h⟩).1 = some (order.get ⟨i, h⟩).2 := by
  refine ⟨rfl, rfl, ?_, ?_⟩
  · show (order.map Prod.fst).length = (order.map Prod.snd).length
    rw [List.length_map, List.length_map]
  intro i h
  have hmm : order.get ⟨i, h⟩ ∈ order := List.get_mem order i h
  have hmem : order.get ⟨i, h⟩ ∈ rs.GetLabels env := horder.mem_iff.mp hmm
  exact mapFind_eq_of_mem hmem (getLabels_keys_nodup env rs)

/-- Environment for the C9 witness: one service whose `channel_id` file
holds `"2\n"`. -/
def chEnv : Env where
  stat := fun _ => .notFound
  fs := fun _ => .missing
  svStatus := fun _ _ => .error "down"
  procStatus := fun _ => .error "no such process"
  channelFile := fun p =>
    if p = "/tmp/service/sys.audio/channel_id" then some "2\n" else none

/-- Witness for C9 with the reversed iteration order of a two-label map. -/
theorem C9_label_arrays_witness :
    mapFind ((⟨"sys.audio", "/tmp/service"⟩ : RunitService).GetLabels chEnv)
      "channel_id" = some "2" :=
  (C9_label_arrays chEnv ⟨"sys.audio", "/tmp/service"⟩
    [("channel_id", "2"), ("service", "audio")]
    (List.isPerm_iff.mp (by decide))).2.2.2 0 (by decide)

theorem sprintfNoArgs_cons_of_ne {c : Char} (cs : List Char) (h : c ≠ '%') :
    sprintfNoArgs (c :: cs) = c :: sprintfNoArgs cs := by
  cases cs with
  | nil => rw [sprintfNoArgs.eq_2, if_neg h]
  | cons d rest => rw [sprintfNoArgs.eq_3, if_neg h]

theorem sprintfNoArgs_of_no_pct {l : List Char} (h : '%' ∉ l) : sprintfNoArgs l = l := by
  induction l with
  | nil => rfl
  | cons c cs ih =>
    have hc : c ≠ '%' := fun hcc => h (hcc ▸ List.mem_cons_self c cs)
    have hcs : '%' ∉ cs := fun hm => h (List.mem_cons_of_mem c hm)
    rw [sprintfNoArgs_cons_of_ne cs hc, ih hcs]

/-- C10: `isServiceDir` passes `path + "/supervise"` through `fmt.Sprintf`
as a format string with no operands, so for a path with no percent sign the
stat'd file is exactly `path + "/supervise"`, but for a path containing the
verb `%d` the name actually checked differs from that concatenation. -/
theorem C10_sprintf_quirk :
    (∀ path : String, '%' ∉ path.toList → statPath path = path ++ "/supervise") ∧
    statPath "/srv/%d" ≠ "/srv/%d" ++ "/supervise" := by
  constructor
  · intro path h
    unfold statPath
    have hno : '%' ∉ (path ++ "/supervise").toList := by
      intro hm
      exact h (by simpa using hm)
    rw [sprintfNoArgs_of_no_pct hno, String.asString_toList]
  · decide

/-- Witness for C10's percent-free part. -/
theorem C10_sprintf_quirk_witness :
    statPath "/service/x" = "/service/x" ++ "/supervise" :=
  C10_sprintf_quirk.1 "/service/x" (by decide)
